import Mathlib

/-
Verification of the distributed tick-synchronous MPC control loop
(`pkg_distributed_robot`: `messages.py`, `robot.py`, `robot_manager.py`).

Conventions of the embedding:
* numpy arrays / Python float lists are modelled as `List ℚ`; the sentinel
  `-10.0` is the rational `-10`;
* Python dictionaries (which preserve insertion order) are modelled as
  association lists `List (Int × V)` in insertion order;
* asyncio queues are modelled as FIFO `List`s (`put` appends, `get` takes the
  head); the simulated network delay only sleeps, so it does not appear in the
  data-level semantics;
* fallible Python code (raised exceptions such as IndexError / AttributeError /
  ValueError) is modelled with `Except`.
-/

/-! ### Python list primitives used by the source -/

/-- Python slice assignment `l[i:j] = xs` for `i ≤ j` (with Python's clamping
of out-of-range indices, which `List.take`/`List.drop` already perform).
Note that when `xs` is shorter or longer than the slice, the list changes
length, and when `i` is beyond the end of the list, `xs` is appended. -/
def sliceAssign (l : List ℚ) (i j : Nat) (xs : List ℚ) : List ℚ :=
  l.take i ++ xs ++ l.drop j

/-- The `while len(pred_flat) < pred_len: pred_flat.extend(last_state)` loop of
`get_other_robot_states`, with explicit fuel (the Python loop diverges when
`last_state` is empty and `pred_len > len(pred_flat)`; that situation is
unreachable from the call site, see `adjustPred`). -/
def extendLoop (pred_len : Nat) (last_state : List ℚ) : Nat → List ℚ → List ℚ
  | 0, acc => acc
  | fuel + 1, acc =>
    if acc.length < pred_len then extendLoop pred_len last_state fuel (acc ++ last_state)
    else acc

/-- Lines 115-123 of `robot_manager.py` (`# 确保长度正确`): truncate the
flattened prediction to `state_dim * horizon` entries, or pad it by repeatedly
extending with its last `state_dim`-long state (with `[default] * state_dim`
when it is empty).  Fuel `state_dim * horizon` suffices for the while loop
because each iteration of the reachable loop adds at least one element. -/
def adjustPred (state_dim horizon : Nat) (default : ℚ) (pred_flat : List ℚ) : List ℚ :=
  let pred_len := state_dim * horizon
  if pred_len < pred_flat.length then
    pred_flat.take pred_len
  else if pred_flat.length < pred_len then
    let last_state :=
      if pred_flat = [] then List.replicate state_dim default
      else pred_flat.drop (pred_flat.length - state_dim)
    extendLoop pred_len last_state pred_len pred_flat
  else pred_flat

/-! ### Peer-state packing (`RobotManager.get_other_robot_states`) -/

/-- The fields of `MpcConfiguration` read by the packing code:
`ns` (state dimension), `N_hor` (horizon), `Nother` (max peer count). -/
structure MpcConfig where
  ns : Nat
  N_hor : Nat
  Nother : Nat
deriving DecidableEq

/-- The two fields of a cached `SimulationResult` that
`get_other_robot_states` reads: `state` (current state, an `ns`-vector) and
`pred_states` (the predicted-state matrix, or `None`). -/
structure CachedState where
  state : List ℚ
  pred_states : Option (List (List ℚ))
deriving DecidableEq

/-- The body of the `for rid, result in self._robot_states.items()` loop of
`get_other_robot_states` (`robot_manager.py` lines 92-126), acting on the
accumulator `(other_robot_states, idx, idx_pred)`. -/
def packStep (cfg : MpcConfig) (default : ℚ) (ego_robot_id : Int)
    (acc : List ℚ × Nat × Nat) (peer : Int × CachedState) : List ℚ × Nat × Nat :=
  if peer.1 ≠ ego_robot_id then
    let buf := sliceAssign acc.1 acc.2.1 (acc.2.1 + cfg.ns) peer.2.state
    let idx := acc.2.1 + cfg.ns
    match peer.2.pred_states with
    | none => (buf, idx, acc.2.2)
    | some pred_states =>
      let pred_flat := adjustPred cfg.ns cfg.N_hor default pred_states.flatten
      (sliceAssign buf acc.2.2 (acc.2.2 + cfg.ns * cfg.N_hor) pred_flat,
       idx,
       acc.2.2 + cfg.ns * cfg.N_hor)
  else acc

/-- `RobotManager.get_other_robot_states(ego_robot_id, config_mpc, default)`
(`robot_manager.py` lines 78-127; the identical code is at `robot.py` lines
278-328, reading the same two fields via `get_robot_state`/`get_pred_states`).
`robot_states` is the manager's cache `self._robot_states` as an association
list in dict-insertion (= registration) order.  The Python default for the
`default` argument is `-10.0`. -/
def get_other_robot_states (robot_states : List (Int × CachedState))
    (ego_robot_id : Int) (cfg : MpcConfig) (default : ℚ) : List ℚ :=
  (robot_states.foldl (packStep cfg default ego_robot_id)
    (List.replicate (cfg.ns * (cfg.N_hor + 1) * cfg.Nother) default,
     0,
     cfg.ns * cfg.Nother)).1

/-! ### Spec-side helpers used to state the packing theorems -/

/-- The cached peers other than the ego robot, in cache order. -/
def non_ego (ego_robot_id : Int) (robot_states : List (Int × CachedState)) :
    List (Int × CachedState) :=
  robot_states.filter (fun p => decide (p.1 ≠ ego_robot_id))

/-- Concatenation of the current states of the non-ego peers, in cache order. -/
def pack_positions (ego_robot_id : Int) (robot_states : List (Int × CachedState)) : List ℚ :=
  ((non_ego ego_robot_id robot_states).map (fun p => p.2.state)).flatten

/-- The predicted-state matrices of the non-ego peers that have one, in cache
order. -/
def pack_pred_list (ego_robot_id : Int) (robot_states : List (Int × CachedState)) :
    List (List (List ℚ)) :=
  (non_ego ego_robot_id robot_states).filterMap (fun p => p.2.pred_states)

/-- Concatenation of the adjusted (truncated/padded) predicted blocks of the
non-ego peers that have predictions, in cache order. -/
def pack_preds (cfg : MpcConfig) (default : ℚ) (ego_robot_id : Int)
    (robot_states : List (Int × CachedState)) : List ℚ :=
  ((pack_pred_list ego_robot_id robot_states).map
    (fun pred_states => adjustPred cfg.ns cfg.N_hor default pred_states.flatten)).flatten

/-- Well-formedness of one cached peer entry: its current state is an
`ns`-vector and each row of its predicted-state matrix (when present) is an
`ns`-vector. -/
def wfPeer (ns : Nat) (e : CachedState) : Bool :=
  e.state.length == ns &&
    (match e.pred_states with
     | none => true
     | some pred_states => pred_states.all (fun row => row.length == ns))

/-- Padding/truncation rule transcribed from the specification text (§4.2):
a flattened predicted block longer than `ns · N` is truncated to `ns · N`; one
shorter is filled by repeating its last `ns`-long state (an all-sentinel state
when it is empty); otherwise it is unchanged. -/
def spec_adjust (ns N_hor : Nat) (default : ℚ) (pred_flat : List ℚ) : List ℚ :=
  if ns * N_hor < pred_flat.length then pred_flat.take (ns * N_hor)
  else if pred_flat.length < ns * N_hor then
    let last_state :=
      if pred_flat = [] then List.replicate ns default
      else pred_flat.drop (pred_flat.length - ns)
    pred_flat ++ (List.replicate ((ns * N_hor - pred_flat.length) / ns) last_state).flatten
  else pred_flat

/-! ### Message and channel layer (`messages.py`) -/

/-- The `MessageType` enum. -/
inductive MessageType where
  | COMPUTE_REQUEST
  | STATE_UPDATE
  | ALL_STATES_UPDATE
  | STEP_COMPLETE
  | REGISTRATION
  | UNREGISTRATION
  | TRAJ_UPDATE
deriving DecidableEq

/-- The `Message` dataclass, polymorphic in the payload type. -/
structure Message (δ : Type) where
  msg_type : MessageType
  sender_id : Int
  data : δ
  timestamp : ℚ
deriving DecidableEq

/-- Message construction: the dataclass constructor followed by
`__post_init__`, which fills a missing timestamp with `datetime.now()`
(passed here explicitly as `now`).  The timestamp is set exactly once, at
construction. -/
def mkMessage (msg_type : MessageType) (sender_id : Int) (data : δ)
    (timestamp : Option ℚ) (now : ℚ) : Message δ :=
  { msg_type := msg_type, sender_id := sender_id, data := data,
    timestamp := timestamp.getD now }

/-- `asyncio.Queue.put` (FIFO enqueue at the tail). -/
def qput (q : List μ) (m : μ) : List μ := q ++ [m]

/-- `asyncio.Queue.get` (FIFO dequeue from the head); `none` models the
suspension on an empty queue. -/
def qget (q : List μ) : Option (μ × List μ) :=
  match q with
  | [] => none
  | m :: rest => some (m, rest)

/-- The `Communication` channel pair of `messages.py`: an inbox and an outbox.
The `NetworkDelay` only sleeps before enqueuing/dequeuing, so it is invisible
at the data level. -/
structure Communication (δ : Type) where
  inbox : List (Message δ)
  outbox : List (Message δ)

/-- `Communication.send`: sample a delay, sleep, then put the message —
unchanged — on the outbox. -/
def comm_send (c : Communication δ) (m : Message δ) : Communication δ :=
  { c with outbox := qput c.outbox m }

/-- `Communication.receive`: get the next message from the inbox, sleep for
the sampled delay, then return it unchanged. -/
def comm_receive (c : Communication δ) : Option (Message δ × Communication δ) :=
  match qget c.inbox with
  | none => none
  | some (m, rest) => some (m, { c with inbox := rest })

/-! ### Robot node (`robot.py`) -/

/-- The slice of the external `TrajectoryTracker` controller state that the
modelled robot code reads and writes: its current state and the sampling
time `ts`. -/
structure Controller (σ : Type) where
  state : σ
  ts : ℚ
deriving DecidableEq

/-- Modelled from the spec: `TrajectoryTracker.step` (package
`pkg_tracker_mpc`, outside this repository's `pkg_distributed_robot` sources)
is invoked by `Robot._handle_state_update` as `self.controller.step(action)`;
§4.3 of the spec states that the ALL_STATES_UPDATE handler advances the state
via `controller.motion_model(state, next_action, ts)`.  The motion model
itself is an external pure function, passed here as `motion`. -/
def controller_step (motion : σ → α → ℚ → σ) (c : Controller σ) (action : α) :
    Controller σ :=
  { c with state := motion c.state action c.ts }

/-- The `Robot` fields touched by the modelled handlers: `id_`, `_state`,
the controller, `_next_action`, and `_idle`.  `_idle = none` models a robot
on which the attribute `self._idle` has never been assigned (it is not set in
`__init__`), so reading it raises `AttributeError`. -/
structure Robot (σ α : Type) where
  id : Int
  state : σ
  controller : Controller σ
  next_action : Option α
  idle : Option Bool
deriving DecidableEq

/-- The `TrajectoryResult` dataclass. -/
structure TrajectoryResult where
  ref_states : List (List ℚ)
  ref_speed : ℚ
  is_complete : Bool
deriving DecidableEq

/-- The `SimulationResult` dataclass.  `debug_info` and `current_refs` are
produced by the external MPC solver and never inspected by the modelled code,
so they are embedded as `Unit`. -/
structure SimulationResult (σ α : Type) where
  robot_id : Int
  state : σ
  pred_states : List (List ℚ)
  debug_info : Unit
  current_refs : Unit
  actions : List α
  traj_result : Option TrajectoryResult
  timestamp : ℚ
deriving DecidableEq

/-- The output 4-tuple of the external `controller.run_step` MPC invocation;
`current_refs` and `debug_info` are kept as `Unit`. -/
structure MpcOutput (α : Type) where
  actions : List α
  pred_states : List (List ℚ)
deriving DecidableEq

/-- `Robot._compute_next_step` (`robot.py` lines 177-205).  The planner call
(`_compute_trajectory`) and the MPC call (`controller.run_step`) are external;
their results enter as `traj_result` and `mpc_out`.  `actions[-1]` on an empty
`actions` raises IndexError (`Except.error`); otherwise `_next_action` is set
to `actions[-1]` and a `SimulationResult` is returned whose `state` is the
robot's current (pre-step) `_state`. -/
def compute_next_step (traj_result : TrajectoryResult) (mpc_out : MpcOutput α)
    (now : ℚ) (r : Robot σ α) : Except Unit (Robot σ α × SimulationResult σ α) :=
  match mpc_out.actions.getLast? with
  | none => Except.error ()
  | some a =>
    Except.ok ({ r with next_action := some a },
      { robot_id := r.id, state := r.state, pred_states := mpc_out.pred_states,
        debug_info := (), current_refs := (), actions := mpc_out.actions,
        traj_result := some traj_result, timestamp := now })

/-- `Robot._handle_compute_request` (`robot.py` lines 207-217): run
`_compute_next_step`, then send the result as a STATE_UPDATE message. -/
def handle_compute_request (traj_result : TrajectoryResult) (mpc_out : MpcOutput α)
    (now : ℚ) (r : Robot σ α) :
    Except Unit (Robot σ α × Message (SimulationResult σ α)) :=
  (compute_next_step traj_result mpc_out now r).map
    (fun p => (p.1, mkMessage MessageType.STATE_UPDATE r.id p.2 none now))

/-- `Robot._handle_state_update` (`robot.py` lines 219-238).  If
`_next_action` is set: advance the controller (`controller.step`), copy its
state into `_state`, clear `_next_action`, recompute `_idle` via the external
termination check, and send STEP_COMPLETE carrying `_idle`.  If
`_next_action` is `None`: send STEP_COMPLETE carrying the current `_idle` —
which raises AttributeError when `_idle` has never been assigned. -/
def handle_state_update (motion : σ → α → ℚ → σ)
    (check_termination : Controller σ → Bool) (now : ℚ) (r : Robot σ α) :
    Except Unit (Robot σ α × Message Bool) :=
  match r.next_action with
  | some a =>
    let c := controller_step motion r.controller a
    let is_idle := check_termination c
    Except.ok ({ r with
        controller := c
        state := c.state
        next_action := none
        idle := some is_idle },
      mkMessage MessageType.STEP_COMPLETE r.id is_idle none now)
  | none =>
    match r.idle with
    | some b => Except.ok (r, mkMessage MessageType.STEP_COMPLETE r.id b none now)
    | none => Except.error ()

/-! ### RobotManager (`robot_manager.py`, async variant; `robot.py` sync variant) -/

/-- Python ordered-dict assignment `d[k] = v` on an association list: replace
in place when the key is present (keeping its position), else append. -/
def dictSet (d : List (Int × V)) (k : Int) (v : V) : List (Int × V) :=
  if d.any (fun p => p.1 == k) then
    d.map (fun p => if p.1 == k then (k, v) else p)
  else d ++ [(k, v)]

/-- Python dict lookup `d[k]` on an association list. -/
def dictGet (d : List (Int × V)) (k : Int) : Option V :=
  (d.find? (fun p => p.1 == k)).map (fun p => p.2)

/-- The async `RobotManager` state (`robot_manager.py` lines 12-22):
the channel registry `_robots` (insertion/registration order), the state
cache `_robot_states`, the per-tick bucket `_step_results`,
`_step_complete_count` and `_all_complete`.  `γ` is the channel handle type. -/
structure RobotManagerState (γ σ α : Type) where
  robots : List (Int × γ)
  robot_states : List (Int × SimulationResult σ α)
  step_results : List (Int × SimulationResult σ α)
  step_complete_count : Nat
  all_complete : Bool
deriving DecidableEq

/-- `RobotManager._handle_registration` (`robot_manager.py` lines 180-184):
unconditionally insert the sender's channel — there is no duplicate check. -/
def handle_registration (st : RobotManagerState γ σ α) (sender_id : Int)
    (robot_comm : γ) : RobotManagerState γ σ α :=
  { st with robots := dictSet st.robots sender_id robot_comm }

/-- `RobotManager.register_robot` of the sync variant (`robot.py` lines
248-252): a duplicate id raises `ValueError` ("already registered", the id
elided from the message) and the registry is untouched. -/
def register_robot (robots : List (Int × γ)) (robot_id : Int) (robot : γ) :
    Except String (List (Int × γ)) :=
  if robots.any (fun p => p.1 == robot_id) then
    Except.error "already registered"
  else Except.ok (robots ++ [(robot_id, robot)])

/-- `RobotManager._handle_state_update` (`robot_manager.py` lines 193-212):
store the result in the cache and in the per-tick bucket, then broadcast an
ALL_STATES_UPDATE carrying the cache snapshot to every registered robot (the
second component lists the recipients paired with the snapshot each receives). -/
def manager_handle_state_update (st : RobotManagerState γ σ α) (sender_id : Int)
    (result : SimulationResult σ α) :
    RobotManagerState γ σ α × List (Int × List (Int × SimulationResult σ α)) :=
  let st := { st with robot_states := dictSet st.robot_states sender_id result,
                      step_results := dictSet st.step_results sender_id result }
  (st, st.robots.map (fun p => (p.1, st.robot_states)))

/-- `RobotManager._handle_step_complete` (`robot_manager.py` lines 214-225):
bind `is_idle = msg.data` (never used afterwards), increment the counter and,
when every registered robot has reported, recompute `_all_complete` from the
cached results' `traj_result.is_complete` (a `None` `traj_result` counts as
not complete, by Python truthiness). -/
def handle_step_complete (st : RobotManagerState γ σ α) (sender_id : Int)
    (is_idle : Bool) : RobotManagerState γ σ α :=
  let cnt := st.step_complete_count + 1
  { st with
    step_complete_count := cnt
    all_complete :=
      if cnt = st.robots.length then
        st.robot_states.all (fun p =>
          match p.2.traj_result with
          | none => false
          | some t => t.is_complete)
      else st.all_complete }

/-- The result-collection semantics of one `RobotManager.simulate_step` tick
(`robot_manager.py` lines 129-164): reset the counter, clear the per-tick
bucket, then let the message loop process the tick's STATE_UPDATE messages in
their arrival order (`arrivals`), and finally return
`list(self._step_results.values())`. -/
def simulate_step_collect (st : RobotManagerState γ σ α)
    (arrivals : List (Int × SimulationResult σ α)) :
    RobotManagerState γ σ α × List (SimulationResult σ α) :=
  let st0 := { st with step_complete_count := 0, step_results := [] }
  let st1 := arrivals.foldl
    (fun s p => (manager_handle_state_update s p.1 p.2).1) st0
  (st1, st1.step_results.map (fun p => p.2))

/-- The barrier wait of `simulate_step` (`robot_manager.py` lines 159-161):
`while self._step_complete_count < len(self._robots): await asyncio.sleep(0.01)`.
`counts t` is the value of `_step_complete_count` observed at the `t`-th poll
(it is incremented concurrently by `_handle_step_complete`); `some t` means
the loop exits at poll `t`, `none` that it is still waiting after `fuel`
polls.  The loop has no timeout branch. -/
def simulate_step_barrier (counts : Nat → Nat) (num_robots : Nat) :
    Nat → Nat → Option Nat
  | _, 0 => none
  | t, fuel + 1 =>
    if counts t < num_robots then simulate_step_barrier counts num_robots (t + 1) fuel
    else some t

/-! ### Concrete fixtures used by counterexamples and witnesses -/

/-- Config with `ns = 1`, `N = 1`, `M = 1`. -/
def cexCfgC1 : MpcConfig := { ns := 1, N_hor := 1, Nother := 1 }

/-- Two well-formed non-ego peers — one more than `Nother = 1` allows. -/
def cexPeersC1 : List (Int × CachedState) :=
  [(1, { state := [1], pred_states := some [[2]] }),
   (2, { state := [3], pred_states := some [[4]] })]

/-- Config with `ns = 1`, `N = 1`, `M = 2`. -/
def cexCfgC2 : MpcConfig := { ns := 1, N_hor := 1, Nother := 2 }

/-- Two non-ego peers: the first has no prediction yet, the second has one. -/
def cexPeersC2 : List (Int × CachedState) :=
  [(1, { state := [1], pred_states := none }),
   (2, { state := [2], pred_states := some [[5]] })]

/-- Peers for the C1 witness: an ego entry plus one well-formed peer. -/
def witPeersC1 : List (Int × CachedState) :=
  [(0, { state := [9], pred_states := some [[9]] }),
   (1, { state := [2], pred_states := some [[3]] })]

/-- A robot with no pending action whose `_idle` flag is currently `False`. -/
def cexRobotC3 : Robot ℚ ℚ :=
  { id := 7, state := 0, controller := { state := 0, ts := 1 },
    next_action := none, idle := some false }

/-- A freshly initialised robot for the C7/C8 witnesses: state `2`, in sync
with its controller, no pending action, `_idle` never assigned. -/
def witRobot : Robot ℚ ℚ :=
  { id := 3, state := 2, controller := { state := 2, ts := 1 },
    next_action := none, idle := none }

/-- An MPC output with two actions. -/
def witMpcOut : MpcOutput ℚ := { actions := [5, 6], pred_states := [[7]] }

/-- A trajectory result fixture. -/
def witTraj : TrajectoryResult := { ref_states := [], ref_speed := 0, is_complete := false }

/-- A simulation result from robot 1. -/
def resA : SimulationResult ℚ ℚ :=
  { robot_id := 1, state := 0, pred_states := [], debug_info := (),
    current_refs := (), actions := [], traj_result := none, timestamp := 0 }

/-- A simulation result from robot 2 (distinct from `resA`). -/
def resB : SimulationResult ℚ ℚ :=
  { robot_id := 2, state := 1, pred_states := [], debug_info := (),
    current_refs := (), actions := [], traj_result := none, timestamp := 0 }

/-- A manager with robots 1 and 2 registered, in that order. -/
def cexMgrC5 : RobotManagerState Unit ℚ ℚ :=
  { robots := [(1, ()), (2, ())], robot_states := [], step_results := [],
    step_complete_count := 0, all_complete := false }

/-- A manager (channel handles modelled as `Nat`) with robot 1 registered on
channel `100`. -/
def cexMgrC6 : RobotManagerState Nat ℚ ℚ :=
  { robots := [(1, 100)], robot_states := [], step_results := [],
    step_complete_count := 0, all_complete := false }

/-! ### Helper lemmas -/

theorem wfPeer_state_length (ns : Nat) (e : CachedState) (h : wfPeer ns e = true) :
    e.state.length = ns := by
  rcases e with ⟨s, ps⟩
  cases ps <;> simp [wfPeer, Bool.and_eq_true, beq_iff_eq] at h
  · exact h
  · exact h.1

theorem wfPeer_pred_rows (ns : Nat) (e : CachedState) (pr : List (List ℚ))
    (h : wfPeer ns e = true) (hp : e.pred_states = some pr) :
    ∀ row ∈ pr, row.length = ns := by
  rcases e with ⟨s, ps⟩
  cases ps with
  | none => cases hp
  | some pr2 =>
    cases hp
    simp [wfPeer, Bool.and_eq_true, List.all_eq_true, beq_iff_eq] at h
    exact h.2

theorem flatten_length_of_rows (ns : Nat) (pr : List (List ℚ))
    (h : ∀ row ∈ pr, row.length = ns) : pr.flatten.length = pr.length * ns := by
  induction pr with
  | nil => simp
  | cons row rest ih =>
    have hrow : row.length = ns := h row (by simp)
    have hrest := ih (fun r hr => h r (by simp [hr]))
    simp [hrow, hrest]
    ring

theorem extendLoop_eq (pred_len : Nat) (last_state : List ℚ) :
    ∀ (fuel : Nat) (acc : List ℚ), 0 < last_state.length →
      last_state.length ∣ (pred_len - acc.length) →
      pred_len ≤ acc.length + fuel * last_state.length →
      extendLoop pred_len last_state fuel acc
        = acc ++
          (List.replicate ((pred_len - acc.length) / last_state.length) last_state).flatten := by
  intro fuel
  induction fuel with
  | zero =>
    intro acc hd hdvd hfuel
    have h0 : pred_len - acc.length = 0 := by omega
    simp [extendLoop, h0]
  | succ f ih =>
    intro acc hd hdvd hfuel
    by_cases hlt : acc.length < pred_len
    · obtain ⟨q, hq⟩ := hdvd
      have hq1 : 1 ≤ q := by
        rcases Nat.eq_zero_or_pos q with h | h
        · subst h; simp at hq; omega
        · exact h
      have hmul : last_state.length * (q - 1) = last_state.length * q - last_state.length := by
        rw [Nat.mul_sub]; simp
      have hdq : last_state.length ≤ last_state.length * q := by
        calc last_state.length = last_state.length * 1 := by ring
          _ ≤ last_state.length * q := Nat.mul_le_mul_left _ hq1
      have hdvd2 : last_state.length ∣ (pred_len - (acc ++ last_state).length) := by
        refine ⟨q - 1, ?_⟩
        simp only [List.length_append]
        omega
      have hfuel2 : pred_len ≤ (acc ++ last_state).length + f * last_state.length := by
        have hsm : (f + 1) * last_state.length = f * last_state.length + last_state.length := by
          ring
        simp only [List.length_append]
        omega
      rw [show extendLoop pred_len last_state (f + 1) acc
            = extendLoop pred_len last_state f (acc ++ last_state) by
          rw [extendLoop]; rw [if_pos hlt]]
      rw [ih (acc ++ last_state) hd hdvd2 hfuel2]
      have e1 : (pred_len - (acc ++ last_state).length) / last_state.length = q - 1 := by
        have hx : pred_len - (acc ++ last_state).length = last_state.length * (q - 1) := by
          simp only [List.length_append]
          omega
        rw [hx, Nat.mul_div_cancel_left _ hd]
      have e2 : (pred_len - acc.length) / last_state.length = q := by
        rw [hq, Nat.mul_div_cancel_left _ hd]
      rw [e1, e2]
      have hq2 : q = (q - 1) + 1 := by omega
      rw [hq2, List.replicate_succ]
      simp [List.append_assoc]
    · have h0 : pred_len - acc.length = 0 := by omega
      rw [show extendLoop pred_len last_state (f + 1) acc = acc by
        rw [extendLoop]; rw [if_neg hlt]]
      simp [h0]

theorem adjustPred_eq_spec (ns N_hor : Nat) (d : ℚ) (flat : List ℚ)
    (hdvd : ns ∣ flat.length) :
    adjustPred ns N_hor d flat = spec_adjust ns N_hor d flat := by
  unfold adjustPred spec_adjust
  by_cases h1 : ns * N_hor < flat.length
  · simp [h1]
  · by_cases h2 : flat.length < ns * N_hor
    · simp only [h1, if_false, h2, if_true]
      have hns : 0 < ns := by
        rcases Nat.eq_zero_or_pos ns with h | h
        · subst h; simp at h2
        · exact h
      have hlastlen :
          (if flat = [] then List.replicate ns d
           else flat.drop (flat.length - ns)).length = ns := by
        by_cases hfe : flat = []
        · simp [hfe]
        · have hpos : 0 < flat.length := List.length_pos.2 hfe
          have hle : ns ≤ flat.length := Nat.le_of_dvd hpos hdvd
          simp [hfe]
          omega
      rw [extendLoop_eq (ns * N_hor) _ (ns * N_hor) flat
        (by rw [hlastlen]; exact hns)
        (by rw [hlastlen]; exact Nat.dvd_sub' (dvd_mul_right ns N_hor) hdvd)
        (by
          have : ns * N_hor ≤ ns * N_hor * ns := by
            calc ns * N_hor = ns * N_hor * 1 := by ring
              _ ≤ ns * N_hor * ns := Nat.mul_le_mul_left _ hns
          rw [hlastlen]
          omega)]
      rw [hlastlen]
    · simp [h1, h2]

theorem adjustPred_length (ns N_hor : Nat) (d : ℚ) (flat : List ℚ)
    (hdvd : ns ∣ flat.length) :
    (adjustPred ns N_hor d flat).length = ns * N_hor := by
  rw [adjustPred_eq_spec ns N_hor d flat hdvd]
  unfold spec_adjust
  by_cases h1 : ns * N_hor < flat.length
  · simp [h1]
    omega
  · by_cases h2 : flat.length < ns * N_hor
    · simp only [h1, if_false, h2, if_true]
      have hns : 0 < ns := by
        rcases Nat.eq_zero_or_pos ns with h | h
        · subst h; simp at h2
        · exact h
      have hlastlen :
          (if flat = [] then List.replicate ns d
           else flat.drop (flat.length - ns)).length = ns := by
        by_cases hfe : flat = []
        · simp [hfe]
        · have hpos : 0 < flat.length := List.length_pos.2 hfe
          have hle : ns ≤ flat.length := Nat.le_of_dvd hpos hdvd
          simp [hfe]
          omega
      have hql : (ns * N_hor - flat.length) / ns * ns = ns * N_hor - flat.length :=
        Nat.div_mul_cancel (Nat.dvd_sub' (dvd_mul_right ns N_hor) hdvd)
      simp [List.length_flatten, List.map_replicate, hlastlen, List.sum_replicate,
        smul_eq_mul]
      omega
    · simp [h1, h2]
      omega

theorem write_position (P Q R : List ℚ) (d : ℚ) (ns k' : Nat) (s : List ℚ)
    (hs : s.length = ns) :
    sliceAssign (P ++ List.replicate (ns * (k' + 1)) d ++ Q ++ R)
        P.length (P.length + ns) s
      = P ++ s ++ List.replicate (ns * k') d ++ Q ++ R := by
  unfold sliceAssign
  have hsplit : List.replicate (ns * (k' + 1)) d
      = List.replicate ns d ++ List.replicate (ns * k') d := by
    rw [← List.replicate_add]
    congr 1
    ring
  rw [hsplit]
  rw [show P ++ (List.replicate ns d ++ List.replicate (ns * k') d) ++ Q ++ R
        = P ++ (List.replicate ns d ++ (List.replicate (ns * k') d ++ Q ++ R)) by
      simp only [List.append_assoc]]
  rw [List.take_left, List.drop_append,
    List.drop_left' (show (List.replicate ns d).length = ns by simp)]
  simp [List.append_assoc]

theorem write_pred (A : List ℚ) (d : ℚ) (nsN m' : Nat) (adj : List ℚ)
    (hadj : adj.length = nsN) :
    sliceAssign (A ++ List.replicate (nsN * (m' + 1)) d) A.length (A.length + nsN) adj
      = A ++ adj ++ List.replicate (nsN * m') d := by
  unfold sliceAssign
  have hsplit : List.replicate (nsN * (m' + 1)) d
      = List.replicate nsN d ++ List.replicate (nsN * m') d := by
    rw [← List.replicate_add]
    congr 1
    ring
  rw [hsplit]
  rw [List.take_left, List.drop_append,
    List.drop_left' (show (List.replicate nsN d).length = nsN by simp)]

theorem non_ego_cons (ego : Int) (p : Int × CachedState) (l : List (Int × CachedState)) :
    non_ego ego (p :: l) = if p.1 = ego then non_ego ego l else p :: non_ego ego l := by
  by_cases h : p.1 = ego <;> simp [non_ego, List.filter_cons, h]

theorem pack_positions_cons_skip (ego : Int) (p : Int × CachedState)
    (l : List (Int × CachedState)) (h : p.1 = ego) :
    pack_positions ego (p :: l) = pack_positions ego l := by
  simp [pack_positions, non_ego_cons, h]

theorem pack_positions_cons_keep (ego : Int) (p : Int × CachedState)
    (l : List (Int × CachedState)) (h : ¬p.1 = ego) :
    pack_positions ego (p :: l) = p.2.state ++ pack_positions ego l := by
  simp [pack_positions, non_ego_cons, h]

theorem pack_pred_list_cons_skip (ego : Int) (p : Int × CachedState)
    (l : List (Int × CachedState)) (h : p.1 = ego) :
    pack_pred_list ego (p :: l) = pack_pred_list ego l := by
  simp [pack_pred_list, non_ego_cons, h]

theorem pack_pred_list_cons_none (ego : Int) (p : Int × CachedState)
    (l : List (Int × CachedState)) (h : ¬p.1 = ego) (hp : p.2.pred_states = none) :
    pack_pred_list ego (p :: l) = pack_pred_list ego l := by
  simp [pack_pred_list, non_ego_cons, h, List.filterMap_cons, hp]

theorem pack_pred_list_cons_some (ego : Int) (p : Int × CachedState)
    (l : List (Int × CachedState)) (pr : List (List ℚ)) (h : ¬p.1 = ego)
    (hp : p.2.pred_states = some pr) :
    pack_pred_list ego (p :: l) = pr :: pack_pred_list ego l := by
  simp [pack_pred_list, non_ego_cons, h, List.filterMap_cons, hp]

theorem pack_preds_cons_skip (cfg : MpcConfig) (d : ℚ) (ego : Int)
    (p : Int × CachedState) (l : List (Int × CachedState)) (h : p.1 = ego) :
    pack_preds cfg d ego (p :: l) = pack_preds cfg d ego l := by
  simp [pack_preds, pack_pred_list_cons_skip ego p l h]

theorem pack_preds_cons_none (cfg : MpcConfig) (d : ℚ) (ego : Int)
    (p : Int × CachedState) (l : List (Int × CachedState)) (h : ¬p.1 = ego)
    (hp : p.2.pred_states = none) :
    pack_preds cfg d ego (p :: l) = pack_preds cfg d ego l := by
  simp [pack_preds, pack_pred_list_cons_none ego p l h hp]

theorem pack_preds_cons_some (cfg : MpcConfig) (d : ℚ) (ego : Int)
    (p : Int × CachedState) (l : List (Int × CachedState)) (pr : List (List ℚ))
    (h : ¬p.1 = ego) (hp : p.2.pred_states = some pr) :
    pack_preds cfg d ego (p :: l)
      = adjustPred cfg.ns cfg.N_hor d pr.flatten ++ pack_preds cfg d ego l := by
  simp [pack_preds, pack_pred_list_cons_some ego p l pr h hp]

theorem pack_fold (cfg : MpcConfig) (d : ℚ) (ego : Int) :
    ∀ (peers : List (Int × CachedState)) (P Q : List ℚ) (k m : Nat),
      (∀ p ∈ non_ego ego peers, wfPeer cfg.ns p.2 = true) →
      (non_ego ego peers).length ≤ k →
      (pack_pred_list ego peers).length ≤ m →
      peers.foldl (packStep cfg d ego)
          (P ++ List.replicate (cfg.ns * k) d ++ Q
             ++ List.replicate (cfg.ns * cfg.N_hor * m) d,
           P.length,
           P.length + cfg.ns * k + Q.length)
        = (P ++ pack_positions ego peers
             ++ List.replicate (cfg.ns * (k - (non_ego ego peers).length)) d
             ++ Q ++ pack_preds cfg d ego peers
             ++ List.replicate
                  (cfg.ns * cfg.N_hor * (m - (pack_pred_list ego peers).length)) d,
           P.length + cfg.ns * (non_ego ego peers).length,
           P.length + cfg.ns * k + Q.length
             + cfg.ns * cfg.N_hor * (pack_pred_list ego peers).length) := by
  intro peers
  induction peers with
  | nil =>
    intro P Q k m hwf hk hm
    simp [non_ego, pack_positions, pack_pred_list, pack_preds]
  | cons peer rest ih =>
    intro P Q k m hwf hk hm
    by_cases hego : peer.1 = ego
    · -- the ego entry is skipped by the loop and by every spec-side helper
      have hstep : packStep cfg d ego
          (P ++ List.replicate (cfg.ns * k) d ++ Q
             ++ List.replicate (cfg.ns * cfg.N_hor * m) d,
           P.length, P.length + cfg.ns * k + Q.length) peer
          = (P ++ List.replicate (cfg.ns * k) d ++ Q
               ++ List.replicate (cfg.ns * cfg.N_hor * m) d,
             P.length, P.length + cfg.ns * k + Q.length) := by
        simp [packStep, hego]
      rw [List.foldl_cons, hstep,
        ih P Q k m (by simpa [non_ego_cons, hego] using hwf)
          (by simpa [non_ego_cons, hego] using hk)
          (by simpa [pack_pred_list_cons_skip ego peer rest hego] using hm)]
      rw [pack_positions_cons_skip ego peer rest hego,
        pack_preds_cons_skip cfg d ego peer rest hego,
        pack_pred_list_cons_skip ego peer rest hego, non_ego_cons]
      simp [hego]
    · -- a real peer: its state is written at idx, its prediction (if any) at idx_pred
      have hpeer_mem : peer ∈ non_ego ego (peer :: rest) := by
        simp [non_ego_cons, hego]
      have hwfp : wfPeer cfg.ns peer.2 = true := hwf peer hpeer_mem
      have hs : peer.2.state.length = cfg.ns := wfPeer_state_length cfg.ns peer.2 hwfp
      have hk1 : 1 ≤ k := by
        have := hk
        rw [non_ego_cons, if_neg hego] at this
        simp at this
        omega
      obtain ⟨k', rfl⟩ : ∃ k', k = k' + 1 := ⟨k - 1, by omega⟩
      have hwf' : ∀ p ∈ non_ego ego rest, wfPeer cfg.ns p.2 = true := by
        intro p hp
        exact hwf p (by rw [non_ego_cons, if_neg hego]; exact List.mem_cons_of_mem _ hp)
      have hk' : (non_ego ego rest).length ≤ k' := by
        have := hk
        rw [non_ego_cons, if_neg hego] at this
        simp at this
        omega
      rcases hps : peer.2.pred_states with _ | pr
      · -- no prediction cached for this peer: idx_pred does not advance
        have hstep : packStep cfg d ego
            (P ++ List.replicate (cfg.ns * (k' + 1)) d ++ Q
               ++ List.replicate (cfg.ns * cfg.N_hor * m) d,
             P.length, P.length + cfg.ns * (k' + 1) + Q.length) peer
            = ((P ++ peer.2.state) ++ List.replicate (cfg.ns * k') d ++ Q
                 ++ List.replicate (cfg.ns * cfg.N_hor * m) d,
               (P ++ peer.2.state).length,
               (P ++ peer.2.state).length + cfg.ns * k' + Q.length) := by
          simp only [packStep, if_pos hego, hps]
          rw [write_position P Q (List.replicate (cfg.ns * cfg.N_hor * m) d) d
            cfg.ns k' peer.2.state hs]
          refine Prod.ext ?_ (Prod.ext ?_ ?_)
          · simp only [List.append_assoc]
          · simp [hs]
          · simp only []
            simp [hs]
            ring
        have hm' : (pack_pred_list ego rest).length ≤ m := by
          rw [pack_pred_list_cons_none ego peer rest hego hps] at hm
          exact hm
        rw [List.foldl_cons, hstep, ih (P ++ peer.2.state) Q k' m hwf' hk' hm']
        rw [pack_positions_cons_keep ego peer rest hego,
          pack_preds_cons_none cfg d ego peer rest hego hps,
          pack_pred_list_cons_none ego peer rest hego hps, non_ego_cons, if_neg hego]
        refine Prod.ext ?_ (Prod.ext ?_ ?_)
        · simp only [List.length_cons, Nat.succ_sub_succ, List.append_assoc]
        · simp [hs]
          ring
        · simp [hs]
          ring
      · -- a prediction is cached: it is adjusted and written at idx_pred
        have hrows : ∀ row ∈ pr, row.length = cfg.ns :=
          wfPeer_pred_rows cfg.ns peer.2 pr hwfp hps
        have hdvd : cfg.ns ∣ pr.flatten.length := by
          rw [flatten_length_of_rows cfg.ns pr hrows]
          exact Dvd.intro pr.length (Nat.mul_comm cfg.ns pr.length)
        have hadjlen : (adjustPred cfg.ns cfg.N_hor d pr.flatten).length
            = cfg.ns * cfg.N_hor :=
          adjustPred_length cfg.ns cfg.N_hor d pr.flatten hdvd
        have hm1 : 1 ≤ m := by
          rw [pack_pred_list_cons_some ego peer rest pr hego hps] at hm
          simp at hm
          omega
        obtain ⟨m', rfl⟩ : ∃ m', m = m' + 1 := ⟨m - 1, by omega⟩
        have hm' : (pack_pred_list ego rest).length ≤ m' := by
          rw [pack_pred_list_cons_some ego peer rest pr hego hps] at hm
          simp at hm
          omega
        have hidxA : P.length + cfg.ns * (k' + 1) + Q.length
            = (P ++ peer.2.state ++ List.replicate (cfg.ns * k') d ++ Q).length := by
          simp [hs]
          ring
        have hstep : packStep cfg d ego
            (P ++ List.replicate (cfg.ns * (k' + 1)) d ++ Q
               ++ List.replicate (cfg.ns * cfg.N_hor * (m' + 1)) d,
             P.length, P.length + cfg.ns * (k' + 1) + Q.length) peer
            = ((P ++ peer.2.state) ++ List.replicate (cfg.ns * k') d
                 ++ (Q ++ adjustPred cfg.ns cfg.N_hor d pr.flatten)
                 ++ List.replicate (cfg.ns * cfg.N_hor * m') d,
               (P ++ peer.2.state).length,
               (P ++ peer.2.state).length + cfg.ns * k'
                 + (Q ++ adjustPred cfg.ns cfg.N_hor d pr.flatten).length) := by
          simp only [packStep, if_pos hego, hps]
          rw [write_position P Q (List.replicate (cfg.ns * cfg.N_hor * (m' + 1)) d) d
            cfg.ns k' peer.2.state hs]
          rw [hidxA]
          rw [write_pred (P ++ peer.2.state ++ List.replicate (cfg.ns * k') d ++ Q) d
            (cfg.ns * cfg.N_hor) m' (adjustPred cfg.ns cfg.N_hor d pr.flatten) hadjlen]
          refine Prod.ext ?_ (Prod.ext ?_ ?_)
          · simp only [List.append_assoc]
          · simp [hs]
          · simp only []
            simp [hs, hadjlen]
            ring
        rw [List.foldl_cons, hstep,
          ih (P ++ peer.2.state) (Q ++ adjustPred cfg.ns cfg.N_hor d pr.flatten)
            k' m' hwf' hk' hm']
        rw [pack_positions_cons_keep ego peer rest hego,
          pack_preds_cons_some cfg d ego peer rest pr hego hps,
          pack_pred_list_cons_some ego peer rest pr hego hps, non_ego_cons, if_neg hego]
        refine Prod.ext ?_ (Prod.ext ?_ ?_)
        · simp only [List.length_cons, Nat.succ_sub_succ, List.append_assoc]
        · simp [hs]
          ring
        · simp [hs, hadjlen]
          ring

theorem pack_characterization (cfg : MpcConfig) (d : ℚ) (ego : Int)
    (peers : List (Int × CachedState))
    (hwf : ∀ p ∈ non_ego ego peers, wfPeer cfg.ns p.2 = true)
    (ho : (non_ego ego peers).length ≤ cfg.Nother) :
    get_other_robot_states peers ego cfg d
      = pack_positions ego peers
        ++ List.replicate (cfg.ns * (cfg.Nother - (non_ego ego peers).length)) d
        ++ pack_preds cfg d ego peers
        ++ List.replicate
             (cfg.ns * cfg.N_hor * (cfg.Nother - (pack_pred_list ego peers).length)) d := by
  have hp : (pack_pred_list ego peers).length ≤ cfg.Nother :=
    le_trans (List.length_filterMap_le _ _) ho
  have hfold := pack_fold cfg d ego peers [] [] cfg.Nother cfg.Nother hwf ho hp
  simp only [List.nil_append, List.append_nil, List.length_nil, Nat.zero_add,
    Nat.add_zero] at hfold
  unfold get_other_robot_states
  rw [show List.replicate (cfg.ns * (cfg.N_hor + 1) * cfg.Nother) d
        = List.replicate (cfg.ns * cfg.Nother) d
          ++ List.replicate (cfg.ns * cfg.N_hor * cfg.Nother) d by
      rw [← List.replicate_add]
      congr 1
      ring]
  rw [hfold]

theorem foldl_packStep_non_ego (cfg : MpcConfig) (d : ℚ) (ego : Int) :
    ∀ (peers : List (Int × CachedState)) (acc : List ℚ × Nat × Nat),
      peers.foldl (packStep cfg d ego) acc
        = (non_ego ego peers).foldl (packStep cfg d ego) acc := by
  intro peers
  induction peers with
  | nil => intro acc; simp [non_ego]
  | cons p rest ih =>
    intro acc
    rw [List.foldl_cons, non_ego_cons]
    by_cases h : p.1 = ego
    · rw [if_pos h, show packStep cfg d ego acc p = acc by simp [packStep, h], ih]
    · rw [if_neg h, List.foldl_cons, ih]

theorem get_other_robot_states_non_ego (cfg : MpcConfig) (d : ℚ) (ego : Int)
    (peers : List (Int × CachedState)) :
    get_other_robot_states peers ego cfg d
      = get_other_robot_states (non_ego ego peers) ego cfg d := by
  unfold get_other_robot_states
  rw [foldl_packStep_non_ego cfg d ego peers]

theorem pack_positions_length (cfg : MpcConfig) (ego : Int)
    (peers : List (Int × CachedState))
    (hwf : ∀ p ∈ non_ego ego peers, wfPeer cfg.ns p.2 = true) :
    (pack_positions ego peers).length = cfg.ns * (non_ego ego peers).length := by
  unfold pack_positions
  rw [flatten_length_of_rows cfg.ns _ ?_]
  · simp [Nat.mul_comm]
  · intro row hrow
    obtain ⟨p, hp, hrow⟩ := List.mem_map.1 hrow
    rw [← hrow]
    exact wfPeer_state_length cfg.ns p.2 (hwf p hp)

theorem pack_preds_length (cfg : MpcConfig) (d : ℚ) (ego : Int)
    (peers : List (Int × CachedState))
    (hwf : ∀ p ∈ non_ego ego peers, wfPeer cfg.ns p.2 = true) :
    (pack_preds cfg d ego peers).length
      = cfg.ns * cfg.N_hor * (pack_pred_list ego peers).length := by
  unfold pack_preds
  rw [flatten_length_of_rows (cfg.ns * cfg.N_hor) _ ?_]
  · simp [Nat.mul_comm]
  · intro row hrow
    obtain ⟨pr, hpr, hrow⟩ := List.mem_map.1 hrow
    obtain ⟨p, hp, hsome⟩ := List.mem_filterMap.1 hpr
    have hrows : ∀ r ∈ pr, r.length = cfg.ns :=
      wfPeer_pred_rows cfg.ns p.2 pr (hwf p hp) hsome
    rw [← hrow]
    exact adjustPred_length cfg.ns cfg.N_hor d pr.flatten
      (by
        rw [flatten_length_of_rows cfg.ns pr hrows]
        exact Dvd.intro pr.length (Nat.mul_comm cfg.ns pr.length))

theorem dictGet_dictSet (d : List (Int × V)) (k : Int) (v : V) :
    dictGet (dictSet d k v) k = some v := by
  by_cases h : d.any (fun p => p.1 == k)
  · rw [dictSet, if_pos h]
    induction d with
    | nil => simp at h
    | cons p rest ih =>
      by_cases hpk : p.1 == k
      · simp [dictGet, List.find?, hpk]
      · have hrest : rest.any (fun q => q.1 == k) = true := by
          simp [List.any_cons, hpk] at h
          simp [List.any_eq_true]
          simpa [List.any_eq_true] using h
        have := ih hrest
        simp [dictGet, List.find?, hpk] at this ⊢
        exact this
  · rw [dictSet, if_neg h]
    have hfind : d.find? (fun p => p.1 == k) = none := by
      rw [List.find?_eq_none]
      intro p hp hbeq
      exact h (List.any_eq_true.2 ⟨p, hp, hbeq⟩)
    simp [dictGet, List.find?_append, hfind]

theorem dictSet_keys_of_mem (d : List (Int × V)) (k : Int) (v : V)
    (h : d.any (fun p => p.1 == k) = true) :
    (dictSet d k v).map Prod.fst = d.map Prod.fst := by
  rw [dictSet, if_pos h, List.map_map]
  apply List.map_congr_left
  intro p hp
  by_cases hpk : p.1 = k
  · simp [hpk]
  · simp [hpk]

theorem dictSet_append_of_not_mem (d : List (Int × V)) (k : Int) (v : V)
    (h : ¬d.any (fun p => p.1 == k) = true) :
    dictSet d k v = d ++ [(k, v)] := by
  rw [dictSet, if_neg h]

theorem step_results_foldl {γ σ α : Type} :
    ∀ (arrivals : List (Int × SimulationResult σ α)) (st : RobotManagerState γ σ α),
      (arrivals.map Prod.fst).Nodup →
      (∀ kk ∈ st.step_results.map Prod.fst, kk ∉ arrivals.map Prod.fst) →
      (arrivals.foldl (fun s p => (manager_handle_state_update s p.1 p.2).1)
          st).step_results
        = st.step_results ++ arrivals := by
  intro arrivals
  induction arrivals with
  | nil =>
    intro st h1 h2
    simp
  | cons a rest ih =>
    intro st h1 h2
    rw [List.foldl_cons]
    have hnotin : a.1 ∉ st.step_results.map Prod.fst := by
      intro hmem
      exact h2 a.1 hmem (by simp)
    have hany : ¬st.step_results.any (fun p => p.1 == a.1) = true := by
      intro hx
      obtain ⟨p, hp, hbeq⟩ := List.any_eq_true.1 hx
      exact hnotin (List.mem_map.2 ⟨p, hp, beq_iff_eq.1 hbeq⟩)
    have hstep : (manager_handle_state_update st a.1 a.2).1
        = { st with
            robot_states := dictSet st.robot_states a.1 a.2
            step_results := st.step_results ++ [a] } := by
      simp [manager_handle_state_update, dictSet_append_of_not_mem _ _ _ hany]
    rw [hstep, ih _ (List.nodup_cons.1 h1).2 ?_]
    · simp
    · intro kk hk
      rw [List.map_append] at hk
      rcases List.mem_append.1 hk with hk | hk
      · intro hmem
        exact h2 kk hk (by simp [hmem])
      · simp at hk
        subst hk
        exact (List.nodup_cons.1 h1).1

/-! ### Claim C1 -/

/-- Claim C1 (amended): provided the cache holds at most `Nother` non-ego
peers, each with an `ns`-long state and `ns`-wide prediction rows, the packed
sequence has length exactly `ns·(N+1)·M`; its first `ns·M` entries are the
concatenated current states of the non-ego peers in cache (registration)
order, followed by sentinel entries; and the result does not depend on the
ego robot's cache entry (packing the cache equals packing the cache with the
ego entry removed).  The original claim's unconditional length statement is
false when more than `Nother` non-ego peers are cached, see
`C1_counterexample`. -/
theorem C1_pack_layout (cfg : MpcConfig) (d : ℚ) (ego : Int)
    (peers : List (Int × CachedState))
    (hwf : ∀ p ∈ non_ego ego peers, wfPeer cfg.ns p.2 = true)
    (ho : (non_ego ego peers).length ≤ cfg.Nother) :
    (get_other_robot_states peers ego cfg d).length
        = cfg.ns * (cfg.N_hor + 1) * cfg.Nother
    ∧ (get_other_robot_states peers ego cfg d).take (cfg.ns * cfg.Nother)
        = pack_positions ego peers
          ++ List.replicate (cfg.ns * (cfg.Nother - (non_ego ego peers).length)) d
    ∧ get_other_robot_states peers ego cfg d
        = get_other_robot_states (non_ego ego peers) ego cfg d := by
  have hp : (pack_pred_list ego peers).length ≤ cfg.Nother :=
    le_trans (List.length_filterMap_le _ _) ho
  have hchar := pack_characterization cfg d ego peers hwf ho
  have hposlen := pack_positions_length cfg ego peers hwf
  have hpredlen := pack_preds_length cfg d ego peers hwf
  have hfront : (pack_positions ego peers
      ++ List.replicate (cfg.ns * (cfg.Nother - (non_ego ego peers).length)) d).length
      = cfg.ns * cfg.Nother := by
    have h1 : cfg.ns * (cfg.Nother - (non_ego ego peers).length)
        = cfg.ns * cfg.Nother - cfg.ns * (non_ego ego peers).length :=
      Nat.mul_sub cfg.ns cfg.Nother (non_ego ego peers).length
    have h2 : cfg.ns * (non_ego ego peers).length ≤ cfg.ns * cfg.Nother :=
      Nat.mul_le_mul_left cfg.ns ho
    simp [hposlen, h1]
    omega
  refine ⟨?_, ?_, get_other_robot_states_non_ego cfg d ego peers⟩
  · rw [hchar]
    have h1 : cfg.ns * cfg.N_hor * (cfg.Nother - (pack_pred_list ego peers).length)
        = cfg.ns * cfg.N_hor * cfg.Nother
          - cfg.ns * cfg.N_hor * (pack_pred_list ego peers).length :=
      Nat.mul_sub (cfg.ns * cfg.N_hor) cfg.Nother (pack_pred_list ego peers).length
    have h2 : cfg.ns * cfg.N_hor * (pack_pred_list ego peers).length
        ≤ cfg.ns * cfg.N_hor * cfg.Nother :=
      Nat.mul_le_mul_left (cfg.ns * cfg.N_hor) hp
    have h3 : cfg.ns * (cfg.Nother - (non_ego ego peers).length)
        = cfg.ns * cfg.Nother - cfg.ns * (non_ego ego peers).length :=
      Nat.mul_sub cfg.ns cfg.Nother (non_ego ego peers).length
    have h4 : cfg.ns * (non_ego ego peers).length ≤ cfg.ns * cfg.Nother :=
      Nat.mul_le_mul_left cfg.ns ho
    have h5 : cfg.ns * (cfg.N_hor + 1) * cfg.Nother
        = cfg.ns * cfg.Nother + cfg.ns * cfg.N_hor * cfg.Nother := by ring
    simp [hposlen, hpredlen, h1, h3]
    omega
  · rw [hchar]
    rw [show pack_positions ego peers
          ++ List.replicate (cfg.ns * (cfg.Nother - (non_ego ego peers).length)) d
          ++ pack_preds cfg d ego peers
          ++ List.replicate
               (cfg.ns * cfg.N_hor * (cfg.Nother - (pack_pred_list ego peers).length)) d
        = (pack_positions ego peers
            ++ List.replicate (cfg.ns * (cfg.Nother - (non_ego ego peers).length)) d)
          ++ (pack_preds cfg d ego peers
            ++ List.replicate
                 (cfg.ns * cfg.N_hor
                   * (cfg.Nother - (pack_pred_list ego peers).length)) d) by
      simp only [List.append_assoc]]
    exact List.take_left' hfront

/-- Claim C1 counterexample: with `ns = 1`, `N = 1`, `Nother = 1` and two
cached non-ego peers, the Python slice assignments run past the end of the
list and grow it: the result is `[1, 3, 4]` of length 3, not
`ns·(N+1)·M = 2` as the claim states for every call. -/
theorem C1_counterexample :
    get_other_robot_states cexPeersC1 0 cexCfgC1 (-10) = [1, 3, 4]
    ∧ (get_other_robot_states cexPeersC1 0 cexCfgC1 (-10)).length = 3
    ∧ cexCfgC1.ns * (cexCfgC1.N_hor + 1) * cexCfgC1.Nother = 2
    ∧ (3 : Nat) ≠ 2 := by
  refine ⟨by decide, by decide, by decide, by decide⟩

/-- Witness for `C1_pack_layout` at a concrete input (one ego entry and one
well-formed peer, `ns = 1`, `N = 1`, `Nother = 2`). -/
theorem C1_pack_layout_witness :
    (∀ p ∈ non_ego 0 witPeersC1, wfPeer (1 : Nat) p.2 = true)
    ∧ (non_ego 0 witPeersC1).length ≤ 2
    ∧ ((get_other_robot_states witPeersC1 0 { ns := 1, N_hor := 1, Nother := 2 } (-10)).length
          = 1 * (1 + 1) * 2
        ∧ (get_other_robot_states witPeersC1 0
              { ns := 1, N_hor := 1, Nother := 2 } (-10)).take (1 * 2)
            = pack_positions 0 witPeersC1
              ++ List.replicate (1 * (2 - (non_ego 0 witPeersC1).length)) (-10)
        ∧ get_other_robot_states witPeersC1 0 { ns := 1, N_hor := 1, Nother := 2 } (-10)
            = get_other_robot_states (non_ego 0 witPeersC1) 0
                { ns := 1, N_hor := 1, Nother := 2 } (-10)) :=
  ⟨by decide, by decide,
    C1_pack_layout { ns := 1, N_hor := 1, Nother := 2 } (-10) 0 witPeersC1
      (by decide) (by decide)⟩

/-! ### Claim C2 -/

/-- Claim C2 (amended): provided at most `Nother` non-ego peers are cached
(each well-formed), the predicted-state region (everything after the first
`ns·M` entries) is the concatenation, in cache order, of the adjusted
predicted blocks of exactly those peers that have a `pred_states` entry,
followed by sentinels; a peer whose `pred_states` is absent contributes no
block and does not reserve a slot — the following peers' blocks shift up to
the earliest unused slot (see `C2_counterexample` for the original claim's
slot-preservation statement failing).  The adjustment rule matches the spec's
bit-exact padding/truncation: blocks longer than `ns·N` are truncated, and
shorter blocks are extended by repeating the last `ns`-long state
(`adjustPred`, translated from the code, agrees with `spec_adjust`,
transcribed from the spec, on every flattened block whose length is a
multiple of `ns`).  The original claim's first-M-truncation rule is also
false: with more than `Nother` peers the loop writes all of them
(`C1_counterexample` exhibits the resulting overflow). -/
theorem C2_pack_padding (cfg : MpcConfig) (d : ℚ) (ego : Int)
    (peers : List (Int × CachedState))
    (hwf : ∀ p ∈ non_ego ego peers, wfPeer cfg.ns p.2 = true)
    (ho : (non_ego ego peers).length ≤ cfg.Nother) :
    (get_other_robot_states peers ego cfg d).drop (cfg.ns * cfg.Nother)
        = pack_preds cfg d ego peers
          ++ List.replicate
               (cfg.ns * cfg.N_hor * (cfg.Nother - (pack_pred_list ego peers).length)) d
    ∧ ∀ pred_flat : List ℚ, cfg.ns ∣ pred_flat.length →
        adjustPred cfg.ns cfg.N_hor d pred_flat = spec_adjust cfg.ns cfg.N_hor d pred_flat := by
  constructor
  · have hchar := pack_characterization cfg d ego peers hwf ho
    have hposlen := pack_positions_length cfg ego peers hwf
    have hfront : (pack_positions ego peers
        ++ List.replicate (cfg.ns * (cfg.Nother - (non_ego ego peers).length)) d).length
        = cfg.ns * cfg.Nother := by
      have h1 : cfg.ns * (cfg.Nother - (non_ego ego peers).length)
          = cfg.ns * cfg.Nother - cfg.ns * (non_ego ego peers).length :=
        Nat.mul_sub cfg.ns cfg.Nother (non_ego ego peers).length
      have h2 : cfg.ns * (non_ego ego peers).length ≤ cfg.ns * cfg.Nother :=
        Nat.mul_le_mul_left cfg.ns ho
      simp [hposlen, h1]
      omega
    rw [hchar]
    rw [show pack_positions ego peers
          ++ List.replicate (cfg.ns * (cfg.Nother - (non_ego ego peers).length)) d
          ++ pack_preds cfg d ego peers
          ++ List.replicate
               (cfg.ns * cfg.N_hor * (cfg.Nother - (pack_pred_list ego peers).length)) d
        = (pack_positions ego peers
            ++ List.replicate (cfg.ns * (cfg.Nother - (non_ego ego peers).length)) d)
          ++ (pack_preds cfg d ego peers
            ++ List.replicate
                 (cfg.ns * cfg.N_hor
                   * (cfg.Nother - (pack_pred_list ego peers).length)) d) by
      simp only [List.append_assoc]]
    exact List.drop_left' hfront
  · intro pred_flat hdvd
    exact adjustPred_eq_spec cfg.ns cfg.N_hor d pred_flat hdvd

/-- Claim C2 counterexample: with `ns = 1`, `N = 1`, `Nother = 2`, peer 1
cached without `pred_states` and peer 2 with prediction `[[5]]`, the packed
list is `[1, 2, 5, -10]`: peer 1's predicted slot (index 2) holds `5`, not
the sentinel, because the code only advances `idx_pred` when a prediction is
written — peer 2's block occupies the absent peer's slot instead of its own
(the claim demands `[1, 2, -10, 5]`). -/
theorem C2_counterexample :
    get_other_robot_states cexPeersC2 0 cexCfgC2 (-10) = [1, 2, 5, -10]
    ∧ (get_other_robot_states cexPeersC2 0 cexCfgC2 (-10)).drop 2 = [5, -10]
    ∧ ([5, -10] : List ℚ) ≠ [-10, 5] := by
  refine ⟨by decide, by decide, by decide⟩

/-- Witness for `C2_pack_padding` at a concrete input (the two peers of
`cexPeersC2`, one without a prediction). -/
theorem C2_pack_padding_witness :
    (∀ p ∈ non_ego 0 cexPeersC2, wfPeer cexCfgC2.ns p.2 = true)
    ∧ (non_ego 0 cexPeersC2).length ≤ cexCfgC2.Nother
    ∧ ((get_other_robot_states cexPeersC2 0 cexCfgC2 (-10)).drop
          (cexCfgC2.ns * cexCfgC2.Nother)
        = pack_preds cexCfgC2 (-10) 0 cexPeersC2
          ++ List.replicate
               (cexCfgC2.ns * cexCfgC2.N_hor
                 * (cexCfgC2.Nother - (pack_pred_list 0 cexPeersC2).length)) (-10)
       ∧ ∀ pred_flat : List ℚ, cexCfgC2.ns ∣ pred_flat.length →
           adjustPred cexCfgC2.ns cexCfgC2.N_hor (-10) pred_flat
             = spec_adjust cexCfgC2.ns cexCfgC2.N_hor (-10) pred_flat) :=
  ⟨by decide, by decide,
    C2_pack_padding cexCfgC2 (-10) 0 cexPeersC2 (by decide) (by decide)⟩

/-! ### Claim C3 -/

/-- Claim C3 (amended): when a robot handles ALL_STATES_UPDATE while
`_next_action` is not set, the handler leaves the robot unchanged and still
sends STEP_COMPLETE — but the payload is the robot's *current* `_idle` flag,
whatever its value, not necessarily `true`; and on a robot whose `_idle`
attribute was never assigned (no compute phase ever completed) the handler
raises AttributeError instead of sending anything.  The original claim's
`is_idle = true` payload is refuted by `C3_counterexample`. -/
theorem C3_no_pending_action {σ α : Type} (motion : σ → α → ℚ → σ)
    (check_termination : Controller σ → Bool) (now : ℚ) (r : Robot σ α)
    (hna : r.next_action = none) :
    (∀ b, r.idle = some b →
      handle_state_update motion check_termination now r
        = Except.ok (r, mkMessage MessageType.STEP_COMPLETE r.id b none now))
    ∧ (r.idle = none →
      handle_state_update motion check_termination now r = Except.error ()) := by
  constructor
  · intro b hb
    simp [handle_state_update, hna, hb]
  · intro hb
    simp [handle_state_update, hna, hb]

/-- Claim C3 counterexample: a robot with no pending action whose `_idle`
flag is `False` replies STEP_COMPLETE with payload `false`, not the `true`
the claim requires. -/
theorem C3_counterexample :
    handle_state_update (fun (s : ℚ) (_ : ℚ) (_ : ℚ) => s) (fun _ => true) 0 cexRobotC3
      = Except.ok (cexRobotC3, mkMessage MessageType.STEP_COMPLETE 7 false none 0)
    ∧ (mkMessage MessageType.STEP_COMPLETE 7 false none 0).data = false
    ∧ false ≠ true := by
  refine ⟨rfl, rfl, by decide⟩

/-- Witness for `C3_no_pending_action` at the concrete robot `cexRobotC3`. -/
theorem C3_no_pending_action_witness :
    cexRobotC3.next_action = none
    ∧ ((∀ b, cexRobotC3.idle = some b →
          handle_state_update (fun (s : ℚ) (_ : ℚ) (_ : ℚ) => s) (fun _ => true) 0
              cexRobotC3
            = Except.ok (cexRobotC3,
                mkMessage MessageType.STEP_COMPLETE cexRobotC3.id b none 0))
       ∧ (cexRobotC3.idle = none →
          handle_state_update (fun (s : ℚ) (_ : ℚ) (_ : ℚ) => s) (fun _ => true) 0
              cexRobotC3
            = Except.error ())) :=
  ⟨rfl, C3_no_pending_action (fun (s : ℚ) (_ : ℚ) (_ : ℚ) => s) (fun _ => true) 0
    cexRobotC3 rfl⟩

/-! ### Claim C4 -/

/-- Claim C4 (amended): the barrier wait of `simulate_step` has no deadline at
all: the polling loop exits only when `_step_complete_count` has reached the
number of registered robots, so if some registered robot never sends
STEP_COMPLETE the Manager polls forever — after any number of polls it has
still not returned (there is no `T_tick`, no declaring missing robots idle,
and no early return of cached results). -/
theorem C4_no_barrier_deadline (counts : Nat → Nat) (num_robots t fuel : Nat)
    (h : ∀ s, counts s < num_robots) :
    simulate_step_barrier counts num_robots t fuel = none := by
  induction fuel generalizing t with
  | zero => rfl
  | succ f ih =>
    rw [simulate_step_barrier, if_pos (h t)]
    exact ih (t + 1)

/-- Claim C4 counterexample: one registered robot that never reports
completion.  The default deadline the claim states is 1 s; with the loop's
10 ms sleep that is about 100 polls.  After 200 polls the barrier has still
not returned (and it never will), so no tick result is produced by the
deadline. -/
theorem C4_counterexample :
    simulate_step_barrier (fun _ => 0) 1 0 200 = none := by decide

/-- Witness for `C4_no_barrier_deadline` with one robot that never completes. -/
theorem C4_no_barrier_deadline_witness :
    (∀ s : Nat, (fun _ => 0 : Nat → Nat) s < 1)
    ∧ simulate_step_barrier (fun _ => 0) 1 0 5 = none :=
  ⟨fun _ => Nat.one_pos,
    C4_no_barrier_deadline (fun _ => 0) 1 0 5 (fun _ => Nat.one_pos)⟩

/-! ### Claim C5 -/

/-- Claim C5 (amended): the list returned by `simulate_step` is
`list(self._step_results.values())`, and `_step_results` is a dict that is
cleared at the start of the tick and filled by `_handle_state_update` in
message-arrival order — so the tick results are ordered by the arrival order
of the robots' STATE_UPDATE messages during the tick, not by registration
order (`C5_counterexample` shows the two orders differ). -/
theorem C5_results_in_arrival_order {γ σ α : Type} (st : RobotManagerState γ σ α)
    (arrivals : List (Int × SimulationResult σ α))
    (hnd : (arrivals.map Prod.fst).Nodup) :
    (simulate_step_collect st arrivals).2 = arrivals.map Prod.snd := by
  simp only [simulate_step_collect]
  rw [step_results_foldl arrivals _ hnd (by simp)]
  simp

/-- Claim C5 counterexample: robots 1 and 2 are registered in that order, but
their STATE_UPDATE messages arrive in the order 2, 1; the tick returns
`[resB, resA]` (arrival order), while the claim requires the
registration-ordered `[resA, resB]`. -/
theorem C5_counterexample :
    cexMgrC5.robots.map Prod.fst = [1, 2]
    ∧ (simulate_step_collect cexMgrC5 [(2, resB), (1, resA)]).2 = [resB, resA]
    ∧ ([resB, resA] : List (SimulationResult ℚ ℚ)) ≠ [resA, resB] := by
  refine ⟨rfl, by decide, by decide⟩

/-- Witness for `C5_results_in_arrival_order` at the concrete tick of
`C5_counterexample`. -/
theorem C5_results_in_arrival_order_witness :
    ((([(2, resB), (1, resA)] : List (Int × SimulationResult ℚ ℚ)).map Prod.fst).Nodup)
    ∧ (simulate_step_collect cexMgrC5 [(2, resB), (1, resA)]).2
        = ([(2, resB), (1, resA)] : List (Int × SimulationResult ℚ ℚ)).map Prod.snd :=
  ⟨by decide,
    C5_results_in_arrival_order cexMgrC5 [(2, resB), (1, resA)] (by decide)⟩

/-! ### Claim C6 -/

/-- Claim C6 (amended): the synchronous manager's `register_robot` does fail
on a duplicate id with an already-registered error (leaving the registry
untouched, since the error is raised before any mutation); but the async
manager's REGISTRATION handler performs no duplicate check at all — a second
REGISTRATION for an id already present silently *replaces* that id's channel
(same key set, new channel value), mutating the registry instead of failing
(`C6_counterexample`). -/
theorem C6_registration {γ σ α : Type} (robots : List (Int × γ)) (robot_id : Int)
    (x : γ) (st : RobotManagerState γ σ α) (sender_id : Int) (c : γ)
    (hdup : robots.any (fun p => p.1 == robot_id) = true)
    (hmem : st.robots.any (fun p => p.1 == sender_id) = true) :
    register_robot robots robot_id x = Except.error "already registered"
    ∧ (handle_registration st sender_id c).robots.map Prod.fst
        = st.robots.map Prod.fst
    ∧ dictGet (handle_registration st sender_id c).robots sender_id = some c := by
  refine ⟨?_, ?_, ?_⟩
  · rw [register_robot, if_pos hdup]
  · exact dictSet_keys_of_mem st.robots sender_id c hmem
  · exact dictGet_dictSet st.robots sender_id c

/-- Claim C6 counterexample: the async manager has robot 1 registered on
channel 100; a second REGISTRATION for id 1 with channel 200 does not fail —
the handler returns normally and the registry now maps 1 to 200, so the
registry is mutated rather than left unchanged. -/
theorem C6_counterexample :
    cexMgrC6.robots = [(1, 100)]
    ∧ (handle_registration cexMgrC6 1 200).robots = [(1, 200)]
    ∧ ([(1, 200)] : List (Int × Nat)) ≠ [(1, 100)] := by
  refine ⟨rfl, by decide, by decide⟩

/-- Witness for `C6_registration` at the concrete manager `cexMgrC6`. -/
theorem C6_registration_witness :
    (([(1, 100)] : List (Int × Nat)).any (fun p => p.1 == 1) = true)
    ∧ (cexMgrC6.robots.any (fun p => p.1 == 1) = true)
    ∧ (register_robot ([(1, 100)] : List (Int × Nat)) 1 200
          = Except.error "already registered"
       ∧ (handle_registration cexMgrC6 1 200).robots.map Prod.fst
           = cexMgrC6.robots.map Prod.fst
       ∧ dictGet (handle_registration cexMgrC6 1 200).robots 1 = some 200) :=
  ⟨by decide, by decide,
    C6_registration [(1, 100)] 1 200 cexMgrC6 1 200 (by decide) (by decide)⟩

/-! ### Claim C7 -/

/-- Claim C7: composing the two phases of a robot's tick — the
COMPUTE_REQUEST handler (which stores `next_action` and leaves the state
untouched) followed by the ALL_STATES_UPDATE handler — the robot's state at
the end of the tick equals `motion_model(state_at_start, next_action, ts)`
where `next_action` is the action stored in the compute phase
(`actions[-1]`); and when `next_action` is `none` (no compute phase ran) the
update handler leaves the state unchanged.  `hsync` records the invariant,
established by `set_state`, that the robot's `_state` mirrors the
controller's state. -/
theorem C7_tick_state_evolution {σ α : Type} (motion : σ → α → ℚ → σ)
    (check_termination : Controller σ → Bool) (traj : TrajectoryResult)
    (mpc_out : MpcOutput α) (now1 now2 : ℚ) (r : Robot σ α)
    (hsync : r.controller.state = r.state) :
    (∀ r1 m1, handle_compute_request traj mpc_out now1 r = Except.ok (r1, m1) →
      ∀ r2 m2, handle_state_update motion check_termination now2 r1
          = Except.ok (r2, m2) →
        ∃ a, mpc_out.actions.getLast? = some a
          ∧ r2.state = motion r.state a r.controller.ts)
    ∧ (r.next_action = none → ∀ b, r.idle = some b →
        ∀ r2 m2, handle_state_update motion check_termination now2 r
            = Except.ok (r2, m2) →
          r2.state = r.state) := by
  constructor
  · intro r1 m1 h1 r2 m2 h2
    rcases hga : mpc_out.actions.getLast? with _ | a
    · simp [handle_compute_request, compute_next_step, hga, Except.map] at h1
    · refine ⟨a, rfl, ?_⟩
      simp [handle_compute_request, compute_next_step, hga, Except.map] at h1
      obtain ⟨hr1, -⟩ := h1
      subst hr1
      simp [handle_state_update] at h2
      obtain ⟨hr2, -⟩ := h2
      subst hr2
      simp [controller_step, hsync]
  · intro hna b hb r2 m2 h2
    simp [handle_state_update, hna, hb] at h2
    obtain ⟨hr2, -⟩ := h2
    subst hr2
    rfl

/-- Witness for `C7_tick_state_evolution`: robot at state 2 (in sync with its
controller, `ts = 1`), MPC actions `[5, 6]`, motion model `s + a·ts`. -/
theorem C7_tick_state_evolution_witness :
    witRobot.controller.state = witRobot.state
    ∧ ((∀ r1 m1, handle_compute_request witTraj witMpcOut 0 witRobot
            = Except.ok (r1, m1) →
          ∀ r2 m2, handle_state_update (fun (s : ℚ) (a : ℚ) (t : ℚ) => s + a * t)
                (fun _ => true) 0 r1
              = Except.ok (r2, m2) →
            ∃ a, witMpcOut.actions.getLast? = some a
              ∧ r2.state = (fun (s : ℚ) (a : ℚ) (t : ℚ) => s + a * t)
                  witRobot.state a witRobot.controller.ts)
       ∧ (witRobot.next_action = none → ∀ b, witRobot.idle = some b →
            ∀ r2 m2, handle_state_update (fun (s : ℚ) (a : ℚ) (t : ℚ) => s + a * t)
                  (fun _ => true) 0 witRobot
                = Except.ok (r2, m2) →
              r2.state = witRobot.state)) :=
  ⟨rfl, C7_tick_state_evolution (fun (s : ℚ) (a : ℚ) (t : ℚ) => s + a * t)
    (fun _ => true) witTraj witMpcOut 0 0 witRobot rfl⟩

/-! ### Claim C8 -/

/-- Claim C8: when the MPC step returns a non-empty `actions` sequence, the
COMPUTE_REQUEST handler stores `next_action = actions[-1]`, leaves the
robot's own state and controller untouched, and replies with a STATE_UPDATE
message whose `SimulationResult.state` is the robot's current (pre-step)
state. -/
theorem C8_compute_request {σ α : Type} (traj : TrajectoryResult)
    (mpc_out : MpcOutput α) (now : ℚ) (r : Robot σ α)
    (h : mpc_out.actions ≠ []) :
    ∃ r1 m1, handle_compute_request traj mpc_out now r = Except.ok (r1, m1)
      ∧ r1.next_action = mpc_out.actions.getLast?
      ∧ r1.state = r.state
      ∧ r1.controller = r.controller
      ∧ m1.msg_type = MessageType.STATE_UPDATE
      ∧ m1.sender_id = r.id
      ∧ m1.data.state = r.state
      ∧ m1.data.robot_id = r.id
      ∧ m1.data.actions = mpc_out.actions
      ∧ m1.data.pred_states = mpc_out.pred_states := by
  obtain ⟨a, hga⟩ : ∃ a, mpc_out.actions.getLast? = some a := by
    cases hx : mpc_out.actions.getLast? with
    | none => exact absurd (List.getLast?_eq_none_iff.1 hx) h
    | some a => exact ⟨a, rfl⟩
  refine ⟨{ r with next_action := some a },
    mkMessage MessageType.STATE_UPDATE r.id
      { robot_id := r.id, state := r.state, pred_states := mpc_out.pred_states,
        debug_info := (), current_refs := (), actions := mpc_out.actions,
        traj_result := some traj, timestamp := now } none now,
    ?_, by simp [hga], rfl, rfl, rfl, rfl, rfl, rfl, rfl, rfl⟩
  simp [handle_compute_request, compute_next_step, hga, mkMessage, Except.map]

/-- Witness for `C8_compute_request` at the concrete robot `witRobot` and
MPC output `witMpcOut` (actions `[5, 6]`). -/
theorem C8_compute_request_witness :
    (witMpcOut.actions ≠ [])
    ∧ (∃ r1 m1, handle_compute_request witTraj witMpcOut 0 witRobot
          = Except.ok (r1, m1)
        ∧ r1.next_action = witMpcOut.actions.getLast?
        ∧ r1.state = witRobot.state
        ∧ r1.controller = witRobot.controller
        ∧ m1.msg_type = MessageType.STATE_UPDATE
        ∧ m1.sender_id = witRobot.id
        ∧ m1.data.state = witRobot.state
        ∧ m1.data.robot_id = witRobot.id
        ∧ m1.data.actions = witMpcOut.actions
        ∧ m1.data.pred_states = witMpcOut.pred_states) :=
  ⟨by decide, C8_compute_request witTraj witMpcOut 0 witRobot (by decide)⟩

/-! ### Claim C9 -/

/-- Claim C9: a message sent through a channel and then received is the very
same message in every field; the timestamp is set exactly once, at
construction (the dataclass fills a missing timestamp with the sender's
current time), and neither `send` (which only sleeps for the simulated delay
before enqueuing) nor `receive` (which dequeues and then sleeps) alters it. -/
theorem C9_message_roundtrip {δ : Type} (ty : MessageType) (sid : Int) (d : δ)
    (now : ℚ) (c : Communication δ) :
    (mkMessage ty sid d none now).msg_type = ty
    ∧ (mkMessage ty sid d none now).sender_id = sid
    ∧ (mkMessage ty sid d none now).data = d
    ∧ (mkMessage ty sid d none now).timestamp = now
    ∧ (mkMessage ty sid d (some now) now).timestamp = now
    ∧ (comm_send c (mkMessage ty sid d none now)).outbox
        = c.outbox ++ [mkMessage ty sid d none now]
    ∧ qget (qput [] (mkMessage ty sid d none now))
        = some (mkMessage ty sid d none now, [])
    ∧ comm_receive { inbox := [mkMessage ty sid d none now], outbox := c.outbox }
        = some (mkMessage ty sid d none now,
            { inbox := [], outbox := c.outbox }) :=
  ⟨rfl, rfl, rfl, rfl, rfl, rfl, rfl, rfl⟩

/-! ### Claim C10 -/

/-- Claim C10: the STEP_COMPLETE handler never reads the message's `is_idle`
payload — it binds it and ignores it.  Two runs on the same manager state
that differ only in the payload produce the same `step_complete_count`, the
same `all_complete` flag (which is recomputed solely from the cached results'
`traj_result.is_complete`), and in fact identical manager states. -/
theorem C10_step_complete_ignores_idle {γ σ α : Type}
    (st : RobotManagerState γ σ α) (sender_id : Int) (d1 d2 : Bool) :
    (handle_step_complete st sender_id d1).step_complete_count
        = (handle_step_complete st sender_id d2).step_complete_count
    ∧ (handle_step_complete st sender_id d1).all_complete
        = (handle_step_complete st sender_id d2).all_complete
    ∧ handle_step_complete st sender_id d1 = handle_step_complete st sender_id d2 :=
  ⟨rfl, rfl, rfl⟩
